import Mathlib

/-!
# The CPU kernel execution engine (`tile/hal/cpu/kernel.cc`)

A shallow embedding of `Kernel::Run` and `Kernel::InvokerName`.

* `size_t` values are natural numbers below `2 ^ 64`; every product and sum the
  source takes in `size_t` is reduced modulo `2 ^ 64`.
* Division and modulo are guarded: a zero divisor is undefined behaviour in the
  source and `none` here.
* The `for` loop of `runLoop` is driven by fuel; running out of fuel is kept
  apart from every outcome the source can produce.
* The machine code behind the entry point is outside the embedding. What is
  recorded is every call a worker thread issues: the callee address, the
  argument vector, the linear index and the decoded grid coordinate. Carrying
  the calls out is a separate step (`callEntry`): a call through address 0 is
  undefined behaviour, a call through any other address is taken to return.
* The workers run concurrently; each worker's own call sequence does not depend
  on the interleaving, so the calls are kept per worker.
-/

namespace vertexai.tile.hal.cpu

/-- Number of values of a `size_t` (64-bit unsigned). -/
def SIZE_RANGE : Nat := 2 ^ 64

/-- Product of two `size_t` values, as the machine takes it. -/
def mulSize (a b : Nat) : Nat := (a * b) % SIZE_RANGE

/-- Sum of two `size_t` values, as the machine takes it. -/
def addSize (a b : Nat) : Nat := (a + b) % SIZE_RANGE

/-- Guarded `a / b`: a zero divisor has no result. -/
def divSize (a b : Nat) : Option Nat := if b = 0 then none else some (a / b)

/-- Guarded `a % b`: a zero divisor has no result. -/
def modSize (a b : Nat) : Option Nat := if b = 0 then none else some (a % b)

/-- Modelled from the spec: `lang::GridSize` is declared outside this file; the
spec gives a grid shape and a grid coordinate as three non-negative integers,
and `Run` holds every value computed from them in `size_t`. The three fields are
`g[0]`, `g[1]`, `g[2]`. -/
structure GridSize where
  x : Nat
  y : Nat
  z : Nat
deriving DecidableEq, Repr

/-- A coordinate lies in the grid: each component is below the shape's. -/
def inGrid (gwork c : GridSize) : Prop := c.x < gwork.x ∧ c.y < gwork.y ∧ c.z < gwork.z

instance (gwork c : GridSize) : Decidable (inGrid gwork c) := by
  unfold inGrid; infer_instance

/-- Line 20: `invoker_prefix_`. -/
def invoker_prefix_ : String := "__invoke_"

/-- Line 74: `InvokerName`. -/
def InvokerName (kname : String) : String := invoker_prefix_ ++ kname

/-- Line 48: `iterations = gwork[0] * gwork[1] * gwork[2]`. -/
def iterations (gwork : GridSize) : Nat := mulSize (mulSize gwork.x gwork.y) gwork.z

/-- Line 49: `denom = {gwork[2] * gwork[1], gwork[2], 1}`. -/
def denom (gwork : GridSize) : GridSize := ⟨mulSize gwork.z gwork.y, gwork.z, 1⟩

/-- Line 51: `threads = std::min(iterations, cores)`. -/
def threads (iterations cores : Nat) : Nat := min iterations cores

/-- Lines 54-57: the coordinate of linear index `i`,
`index[k] = i / denom[k] % gwork[k]`. -/
def decodeIndex (gwork : GridSize) (i : Nat) : Option GridSize :=
  (divSize i (denom gwork).x).bind fun q0 =>
  (modSize q0 gwork.x).bind fun c0 =>
  (divSize i (denom gwork).y).bind fun q1 =>
  (modSize q1 gwork.y).bind fun c1 =>
  (divSize i (denom gwork).z).bind fun q2 =>
  (modSize q2 gwork.z).bind fun c2 =>
  some ⟨c0, c1, c2⟩

/-- One call of the entry point (line 58), with the linear index it came from. -/
structure Invocation where
  linear : Nat
  entrypoint : Nat
  argvec : List Nat
  index : GridSize
deriving DecidableEq, Repr

/-- Why an evaluation of the embedding stops without a value: undefined
behaviour of the source (a zero divisor, a call through a null function
pointer) or the end of the fuel. -/
inductive Stop where
  | divByZero
  | outOfFuel
  | nullCall
deriving DecidableEq, Repr

/-- Lines 53-59: the loop of `runLoop`, entered with loop variable `i`. The
closure captures `gwork`, `entrypoint`, `argvec` and `threads`; `iterations`
and `denom` are the values lines 48-49 compute from `gwork`. -/
def runLoopFrom (gwork : GridSize) (entrypoint : Nat) (argvec : List Nat) (threads : Nat) :
    Nat → Nat → Except Stop (List Invocation)
  | 0, _ => .error .outOfFuel
  | fuel + 1, i =>
    if i < iterations gwork then
      match decodeIndex gwork i with
      | none => .error .divByZero
      | some index =>
        match runLoopFrom gwork entrypoint argvec threads fuel (addSize i threads) with
        | .error s => .error s
        | .ok rest => .ok (⟨i, entrypoint, argvec, index⟩ :: rest)
    else .ok []

/-- Line 52: `runLoop(offset)`. -/
def runLoop (gwork : GridSize) (entrypoint : Nat) (argvec : List Nat) (threads : Nat)
    (fuel offset : Nat) : Except Stop (List Invocation) :=
  runLoopFrom gwork entrypoint argvec threads fuel offset

/-- Lines 61-67: one worker per listed offset, each running `run`; all joined. -/
def spawnWorkers (run : Nat → Except Stop (List Invocation)) :
    List Nat → Except Stop (List (List Invocation))
  | [] => .ok []
  | o :: os =>
    match run o with
    | .error s => .error s
    | .ok w =>
      match spawnWorkers run os with
      | .error s => .error s
      | .ok ws => .ok (w :: ws)

/-- Lines 62-64: the offsets the workers are started with, `0 .. threads - 1`. -/
def workerOffsets (threads : Nat) : List Nat := List.range threads

/-- A buffer, as far as `Run` uses it: the address `Buffer::Downcast(b)->base()`
returns (`buffer.h` lies outside this file; the downcast is taken to succeed). -/
structure Buffer where
  base : Nat
deriving DecidableEq, Repr

/-- The value of a completed execution (lines 68-69). -/
structure Result where
  ctx : Nat
  label : String
  start : Nat
  finish : Nat
deriving DecidableEq, Repr

/-- The completion signal the continuation resolves: a failure (an exception
left the continuation) or a `Result`. -/
inductive Signal where
  | failed (e : String)
  | result (r : Result)
deriving DecidableEq, Repr

/-- What the continuation did: the base addresses resolved (lines 39-42), the
symbols looked up (line 44) and the calls issued by each worker (line 58). -/
structure Trace where
  bases : List Nat
  lookups : List String
  calls : List (List Invocation)
deriving DecidableEq, Repr

/-- What `Run` reads from its host: the value of
`std::thread::hardware_concurrency()` and the two clock readings. -/
structure Host where
  cores : Nat
  start : Nat
  finish : Nat
deriving DecidableEq, Repr

/-- The fields of `lang::KernelInfo` that `Run` reads. -/
structure KernelInfo where
  kname : String
  gwork : GridSize

/-- The kernel: the execution engine, as its symbol lookup
`getFunctionAddress` (address `0` when the symbol is absent), and `ki_`. -/
structure Kernel where
  engine_ : String → Nat
  ki_ : KernelInfo

/-- Lines 34-70: the continuation registered on the joined dependencies.
`future` is the joined dependency signal; `future.get()` rethrows its failure. -/
def continuation (engine : String → Nat) (invoker_name : String) (gwork : GridSize)
    (host : Host) (ctx : Nat) (params : List Buffer) (fuel : Nat)
    (future : Except String Unit) : Except Stop (Trace × Signal) :=
  match future with
  | .error e => .ok (⟨[], [], []⟩, .failed e)
  | .ok () =>
    let args := params.map Buffer.base
    let entrypoint := engine invoker_name
    let threads := threads (iterations gwork) host.cores
    match spawnWorkers (runLoop gwork entrypoint args threads fuel) (workerOffsets threads) with
    | .error s => .error s
    | .ok workers =>
      .ok (⟨args, [invoker_name], workers⟩,
        .result ⟨ctx, "tile::hal::cpu::Executing", host.start, host.finish⟩)

/-- Lines 24-72: `Run`, given the signal `Event::WaitFor(dependencies)` resolves to. -/
def Kernel.Run (k : Kernel) (host : Host) (ctx : Nat) (params : List Buffer)
    (fuel : Nat) (dependencies : Except String Unit) : Except Stop (Trace × Signal) :=
  continuation k.engine_ (InvokerName k.ki_.kname) k.ki_.gwork host ctx params fuel dependencies

/-- The calls of all workers of one trace, taken together. -/
def Trace.allCalls (t : Trace) : List Invocation := t.calls.flatten

/-- Line 58, carried out: `entrypoint` is cast to a function pointer and called.
`getFunctionAddress` returns 0 for a symbol it cannot resolve, and a call
through a null function pointer is undefined behaviour; any other address is
taken to hold the kernel's code, which returns. -/
def callEntry (c : Invocation) : Except Stop Unit :=
  if c.entrypoint = 0 then .error .nullCall else .ok ()

/-- Every call of a list carried out. -/
def callAll : List Invocation → Except Stop Unit
  | [] => .ok ()
  | c :: cs =>
    match callEntry c with
    | .error s => .error s
    | .ok () => callAll cs

/-- `Run` with the calls its workers issue carried out: the signal of `Run`
stands only when no call is undefined. -/
def Kernel.RunCalling (k : Kernel) (host : Host) (ctx : Nat) (params : List Buffer)
    (fuel : Nat) (dependencies : Except String Unit) : Except Stop (Trace × Signal) :=
  match k.Run host ctx params fuel dependencies with
  | .error s => .error s
  | .ok (tr, sig) =>
    match callAll tr.allCalls with
    | .error s => .error s
    | .ok () => .ok (tr, sig)

/-! ## Closed forms used to state what the loops compute -/

/-- The unravel formula on plain naturals: coordinate of `i` in shape `g`. -/
def unravel (g : GridSize) (i : Nat) : GridSize :=
  ⟨i / (g.y * g.z) % g.x, i / g.z % g.y, i % g.z⟩

/-- The row-major offset of a coordinate. -/
def ravel (g c : GridSize) : Nat := c.x * (g.y * g.z) + c.y * g.z + c.z

/-- The coordinate lines 55-57 compute for `i` when no divisor is zero. -/
def coordOf (g : GridSize) (i : Nat) : GridSize :=
  ⟨i / (denom g).x % g.x, i / g.z % g.y, i % g.z⟩

/-- The call of trip `k` of the worker started at `o`. -/
def callAt (g : GridSize) (e : Nat) (a : List Nat) (t o k : Nat) : Invocation :=
  ⟨o + k * t, e, a, coordOf g (o + k * t)⟩

/-- Ceiling of `(n - o) / t`, the number of `i = o, o + t, ...` below `n`. -/
def tripCount (n t o : Nat) : Nat := (n - o + t - 1) / t

/-- The calls of the worker started at `o`, trip by trip. -/
def workerCalls (g : GridSize) (e : Nat) (a : List Nat) (t o : Nat) : List Invocation :=
  (List.range (tripCount (iterations g) t o)).map (callAt g e a t o)

/-- The linear indices worker `o` processes, in processing order. -/
def workerIndices (n t o : Nat) : List Nat :=
  (List.range (tripCount n t o)).map (fun k => o + k * t)

/-- The indices of all workers `0 .. t - 1`, worker after worker. -/
def allIndices (n t : Nat) : List Nat := ((List.range t).map (workerIndices n t)).flatten

/-! ## Arithmetic of the decode -/

theorem iterations_eq (g : GridSize) : iterations g = (g.x * g.y * g.z) % SIZE_RANGE := by
  unfold iterations mulSize
  exact Nat.mod_mul_mod

/-- A running loop body means no divisor and no modulus is zero. -/
theorem nonzero_of_iterations_pos (g : GridSize) (h : 0 < iterations g) :
    (denom g).x ≠ 0 ∧ (denom g).y ≠ 0 ∧ (denom g).z ≠ 0 ∧ g.x ≠ 0 ∧ g.y ≠ 0 ∧ g.z ≠ 0 := by
  rw [iterations_eq] at h
  have hx : g.x ≠ 0 := by
    rintro h0; simp [h0] at h
  have hy : g.y ≠ 0 := by
    rintro h0; simp [h0] at h
  have hz : g.z ≠ 0 := by
    rintro h0; simp [h0] at h
  refine ⟨?_, hz, by simp [denom], hx, hy, hz⟩
  intro h0
  simp only [denom, mulSize] at h0
  have hd : SIZE_RANGE ∣ g.z * g.y := Nat.dvd_of_mod_eq_zero h0
  have hd2 : SIZE_RANGE ∣ g.x * g.y * g.z := by
    have : g.x * g.y * g.z = g.x * (g.z * g.y) := by ring
    rw [this]
    exact Dvd.dvd.mul_left hd _
  rw [Nat.mod_eq_zero_of_dvd hd2] at h
  exact absurd h (lt_irrefl 0)

theorem decodeIndex_of_nonzero (g : GridSize) (i : Nat)
    (h0 : (denom g).x ≠ 0) (hx : g.x ≠ 0) (hy : g.y ≠ 0) (hz : g.z ≠ 0) :
    decodeIndex g i = some ⟨i / (denom g).x % g.x, i / g.z % g.y, i % g.z⟩ := by
  have h1 : (denom g).y = g.z := rfl
  have h2 : (denom g).z = 1 := rfl
  simp [decodeIndex, divSize, modSize, h0, hx, hy, hz, h1, h2]

theorem decodeIndex_of_lt (g : GridSize) (i : Nat) (h : i < iterations g) :
    decodeIndex g i = some ⟨i / (denom g).x % g.x, i / g.z % g.y, i % g.z⟩ := by
  obtain ⟨h0, _, _, hx, hy, hz⟩ := nonzero_of_iterations_pos g (lt_of_le_of_lt (Nat.zero_le _) h)
  exact decodeIndex_of_nonzero g i h0 hx hy hz

theorem denom_of_fit (g : GridSize) (hx : 1 ≤ g.x) (h : g.x * g.y * g.z < SIZE_RANGE) :
    (denom g).x = g.y * g.z := by
  have : g.z * g.y < SIZE_RANGE := by
    calc g.z * g.y = 1 * (g.y * g.z) := by ring
      _ ≤ g.x * (g.y * g.z) := Nat.mul_le_mul_right _ hx
      _ = g.x * g.y * g.z := by ring
      _ < SIZE_RANGE := h
  simp only [denom, mulSize]
  rw [Nat.mod_eq_of_lt this]; ring

theorem decodeIndex_of_fit (g : GridSize) (i : Nat) (hx : 1 ≤ g.x) (hy : 1 ≤ g.y) (hz : 1 ≤ g.z)
    (h : g.x * g.y * g.z < SIZE_RANGE) : decodeIndex g i = some (unravel g i) := by
  have hd := denom_of_fit g hx h
  have hpos : 0 < g.y * g.z := Nat.mul_pos hy hz
  rw [decodeIndex_of_nonzero g i (by omega) (by omega) (by omega) (by omega), hd]
  rfl

theorem ravel_lt (g c : GridSize) (hc : inGrid g c) : ravel g c < g.x * g.y * g.z := by
  obtain ⟨h0, h1, h2⟩ := hc
  unfold ravel
  have e1 : c.y * g.z + c.z < g.y * g.z := by
    calc c.y * g.z + c.z < c.y * g.z + g.z := by omega
      _ = (c.y + 1) * g.z := by ring
      _ ≤ g.y * g.z := Nat.mul_le_mul_right _ h1
  calc c.x * (g.y * g.z) + c.y * g.z + c.z < c.x * (g.y * g.z) + g.y * g.z := by omega
    _ = (c.x + 1) * (g.y * g.z) := by ring
    _ ≤ g.x * (g.y * g.z) := Nat.mul_le_mul_right _ h0
    _ = g.x * g.y * g.z := by ring

theorem unravel_inGrid (g : GridSize) (i : Nat) (hx : 1 ≤ g.x) (hy : 1 ≤ g.y) (hz : 1 ≤ g.z) :
    inGrid g (unravel g i) :=
  ⟨Nat.mod_lt _ hx, Nat.mod_lt _ hy, Nat.mod_lt _ hz⟩

theorem ravel_unravel (g : GridSize) (i : Nat) (h : i < g.x * g.y * g.z) :
    ravel g (unravel g i) = i := by
  unfold ravel unravel
  simp only
  have hq : i / (g.y * g.z) < g.x := by
    apply Nat.div_lt_of_lt_mul
    calc i < g.x * g.y * g.z := h
      _ = g.y * g.z * g.x := by ring
  rw [Nat.mod_eq_of_lt hq]
  have e1 : i / (g.y * g.z) = i / g.z / g.y := by
    rw [Nat.div_div_eq_div_mul, Nat.mul_comm]
  have e2 := Nat.div_add_mod (i / g.z) g.y
  have e3 := Nat.div_add_mod i g.z
  rw [e1]
  calc i / g.z / g.y * (g.y * g.z) + i / g.z % g.y * g.z + i % g.z
      = g.z * (g.y * (i / g.z / g.y) + i / g.z % g.y) + i % g.z := by ring
    _ = i := by rw [e2, e3]

theorem unravel_ravel (g c : GridSize) (hc : inGrid g c) : unravel g (ravel g c) = c := by
  obtain ⟨h0, h1, h2⟩ := hc
  have hz : 0 < g.z := by omega
  have hy : 0 < g.y := by omega
  have a1 : (c.x * (g.y * g.z) + c.y * g.z + c.z) % g.z = c.z := by
    have : c.x * (g.y * g.z) + c.y * g.z + c.z = c.z + g.z * (c.x * g.y + c.y) := by ring
    rw [this, Nat.add_mul_mod_self_left, Nat.mod_eq_of_lt h2]
  have a2 : (c.x * (g.y * g.z) + c.y * g.z + c.z) / g.z = c.x * g.y + c.y := by
    have : c.x * (g.y * g.z) + c.y * g.z + c.z = c.z + g.z * (c.x * g.y + c.y) := by ring
    rw [this, Nat.add_mul_div_left _ _ hz, Nat.div_eq_of_lt h2, Nat.zero_add]
  have a3 : (c.x * g.y + c.y) % g.y = c.y := by
    have : c.x * g.y + c.y = c.y + g.y * c.x := by ring
    rw [this, Nat.add_mul_mod_self_left, Nat.mod_eq_of_lt h1]
  have a4 : (c.x * g.y + c.y) / g.y = c.x := by
    have : c.x * g.y + c.y = c.y + g.y * c.x := by ring
    rw [this, Nat.add_mul_div_left _ _ hy, Nat.div_eq_of_lt h1, Nat.zero_add]
  have a5 : (c.x * (g.y * g.z) + c.y * g.z + c.z) / (g.y * g.z) = c.x := by
    rw [Nat.mul_comm g.y g.z, ← Nat.div_div_eq_div_mul, Nat.mul_comm g.z g.y, a2, a4]
  unfold unravel ravel
  simp only [a1, a2, a3, a5, Nat.mod_eq_of_lt h0]

/-! ## The worker loop -/

theorem lt_tripCount_iff (n t o k : Nat) (ht : 1 ≤ t) : k < tripCount n t o ↔ o + k * t < n := by
  unfold tripCount
  rw [Nat.lt_iff_add_one_le, Nat.le_div_iff_mul_le (by omega)]
  have : (k + 1) * t = k * t + t := by ring
  omega

theorem tripCount_of_ge (n t o : Nat) (ht : 1 ≤ t) (h : n ≤ o) : tripCount n t o = 0 := by
  by_contra hne
  have h0 : 0 < tripCount n t o := Nat.pos_of_ne_zero hne
  have := (lt_tripCount_iff n t o 0 ht).mp h0
  omega

theorem tripCount_step (n t o : Nat) (ht : 1 ≤ t) (h : o < n) :
    tripCount n t o = tripCount n t (o + t) + 1 := by
  apply Nat.le_antisymm
  · by_contra hlt
    have h1 : tripCount n t (o + t) + 1 < tripCount n t o := by omega
    have h2 := (lt_tripCount_iff n t o _ ht).mp h1
    have h3 : ¬ (tripCount n t (o + t) < tripCount n t (o + t)) := lt_irrefl _
    rw [lt_tripCount_iff n t (o + t) _ ht] at h3
    have : (tripCount n t (o + t) + 1) * t = tripCount n t (o + t) * t + t := by ring
    omega
  · rcases Nat.eq_zero_or_pos (tripCount n t (o + t)) with h0 | h0
    · rw [h0]
      exact (lt_tripCount_iff n t o 0 ht).mpr (by omega)
    · have h1 : tripCount n t (o + t) - 1 < tripCount n t (o + t) := by omega
      have h2 := (lt_tripCount_iff n t (o + t) _ ht).mp h1
      have h3 : tripCount n t (o + t) < tripCount n t o := by
        rw [lt_tripCount_iff n t o _ ht]
        have : tripCount n t (o + t) * t = (tripCount n t (o + t) - 1) * t + t := by
          conv_lhs => rw [show tripCount n t (o + t) = (tripCount n t (o + t) - 1) + 1 by omega]
          ring
        omega
      omega

theorem callAt_succ (g : GridSize) (e : Nat) (a : List Nat) (t o k : Nat) :
    callAt g e a t o (k + 1) = callAt g e a t (o + t) k := by
  have : o + (k + 1) * t = o + t + k * t := by ring
  simp [callAt, this]

theorem workerCalls_step (g : GridSize) (e : Nat) (a : List Nat) (t o : Nat) (ht : 1 ≤ t)
    (h : o < iterations g) :
    workerCalls g e a t o = ⟨o, e, a, coordOf g o⟩ :: workerCalls g e a t (o + t) := by
  unfold workerCalls
  rw [tripCount_step _ _ _ ht h, List.range_succ_eq_map, List.map_cons, List.map_map]
  congr 1
  · simp [callAt]
  · apply List.map_congr_left
    intro k _
    exact callAt_succ g e a t o k

/-- Without wrap-around of `i += threads`, the loop ends and issues `workerCalls`. -/
theorem runLoopFrom_ok (g : GridSize) (e : Nat) (a : List Nat) (t : Nat) (ht : 1 ≤ t)
    (hw : iterations g + t ≤ SIZE_RANGE) :
    ∀ fuel i, iterations g - i < fuel →
      runLoopFrom g e a t fuel i = .ok (workerCalls g e a t i) := by
  intro fuel
  induction fuel with
  | zero => intro i h; omega
  | succ fuel ih =>
    intro i h
    unfold runLoopFrom
    by_cases hi : i < iterations g
    · have hadd : addSize i t = i + t := by
        unfold addSize
        exact Nat.mod_eq_of_lt (by omega)
      rw [if_pos hi, decodeIndex_of_lt g i hi, hadd, ih (i + t) (by omega),
        workerCalls_step g e a t i ht hi]
      rfl
    · rw [if_neg hi]
      have : workerCalls g e a t i = [] := by
        unfold workerCalls
        rw [tripCount_of_ge _ _ _ ht (by omega)]
        rfl
      rw [this]

theorem spawnWorkers_ok (run : Nat → Except Stop (List Invocation)) (f : Nat → List Invocation) :
    ∀ os : List Nat, (∀ o ∈ os, run o = .ok (f o)) → spawnWorkers run os = .ok (os.map f) := by
  intro os
  induction os with
  | nil => intro _; rfl
  | cons o os ih =>
    intro h
    unfold spawnWorkers
    rw [h o (List.mem_cons_self _ _), ih (fun o2 ho2 => h o2 (List.mem_cons_of_mem _ ho2))]
    rfl

/-- The continuation on resolved dependencies, when `i += threads` cannot wrap:
it completes, and worker `o` has issued `workerCalls ... o`. -/
theorem continuation_ok (engine : String → Nat) (name : String) (g : GridSize) (host : Host)
    (ctx : Nat) (params : List Buffer) (fuel : Nat)
    (hw : iterations g + threads (iterations g) host.cores ≤ SIZE_RANGE)
    (hf : iterations g < fuel) :
    continuation engine name g host ctx params fuel (.ok ()) =
      .ok (⟨params.map Buffer.base, [name],
          (List.range (threads (iterations g) host.cores)).map
            (workerCalls g (engine name) (params.map Buffer.base)
              (threads (iterations g) host.cores))⟩,
        .result ⟨ctx, "tile::hal::cpu::Executing", host.start, host.finish⟩) := by
  unfold continuation
  simp only [workerOffsets]
  rw [spawnWorkers_ok _ (workerCalls g (engine name) (params.map Buffer.base)
      (threads (iterations g) host.cores))]
  intro o ho
  have hot : o < threads (iterations g) host.cores := List.mem_range.mp ho
  unfold runLoop
  exact runLoopFrom_ok g _ _ _ (by omega) hw fuel o (by omega)

/-! ## The indices of the workers -/

theorem workerCalls_linear (g : GridSize) (e : Nat) (a : List Nat) (t o : Nat) :
    (workerCalls g e a t o).map Invocation.linear = workerIndices (iterations g) t o := by
  simp [workerCalls, workerIndices, callAt, Function.comp_def]

theorem mem_workerIndices (n t o i : Nat) (ht : 1 ≤ t) (ho : o < t) :
    i ∈ workerIndices n t o ↔ i < n ∧ i % t = o := by
  unfold workerIndices
  rw [List.mem_map]
  constructor
  · rintro ⟨k, hk, rfl⟩
    rw [List.mem_range, lt_tripCount_iff n t o k ht] at hk
    refine ⟨hk, ?_⟩
    rw [Nat.add_mul_mod_self_right, Nat.mod_eq_of_lt ho]
  · rintro ⟨hi, hm⟩
    refine ⟨i / t, ?_, ?_⟩
    · rw [List.mem_range, lt_tripCount_iff n t o _ ht]
      have := Nat.div_add_mod i t
      have e2 : t * (i / t) = i / t * t := Nat.mul_comm _ _
      omega
    · have := Nat.div_add_mod i t
      have e2 : t * (i / t) = i / t * t := Nat.mul_comm _ _
      omega

theorem workerIndices_nodup (n t o : Nat) (ht : 1 ≤ t) : (workerIndices n t o).Nodup := by
  unfold workerIndices
  apply List.Nodup.map _ (List.nodup_range _)
  intro k1 k2 h
  have h2 : k1 * t = k2 * t := by simpa using h
  exact Nat.eq_of_mul_eq_mul_right (by omega) h2

theorem mem_allIndices (n t i : Nat) (ht : 1 ≤ t) : i ∈ allIndices n t ↔ i < n := by
  unfold allIndices
  rw [List.mem_flatten]
  constructor
  · rintro ⟨l, hl, hil⟩
    obtain ⟨o, ho, rfl⟩ := List.mem_map.mp hl
    exact ((mem_workerIndices n t o i ht (List.mem_range.mp ho)).mp hil).1
  · intro hi
    refine ⟨workerIndices n t (i % t), List.mem_map.mpr ⟨i % t, ?_, rfl⟩, ?_⟩
    · exact List.mem_range.mpr (Nat.mod_lt _ (by omega))
    · exact (mem_workerIndices n t (i % t) i ht (Nat.mod_lt _ (by omega))).mpr ⟨hi, rfl⟩

theorem allIndices_nodup (n t : Nat) (ht : 1 ≤ t) : (allIndices n t).Nodup := by
  unfold allIndices
  rw [List.nodup_flatten]
  constructor
  · intro l hl
    obtain ⟨o, _, rfl⟩ := List.mem_map.mp hl
    exact workerIndices_nodup n t o ht
  · rw [List.pairwise_map]
    apply List.Pairwise.imp_of_mem _ (List.nodup_range t)
    intro o1 o2 h1 h2 hne
    intro i hi1 hi2
    have e1 := ((mem_workerIndices n t o1 i ht (List.mem_range.mp h1)).mp hi1).2
    have e2 := ((mem_workerIndices n t o2 i ht (List.mem_range.mp h2)).mp hi2).2
    exact hne (e1.symm.trans e2)

theorem allIndices_perm (n t : Nat) (ht : 1 ≤ t) : (allIndices n t).Perm (List.range n) := by
  rw [List.perm_ext_iff_of_nodup (allIndices_nodup n t ht) (List.nodup_range n)]
  intro i
  rw [mem_allIndices n t i ht, List.mem_range]

/-! ## All workers together -/

theorem allCalls_entrypoint (g : GridSize) (e : Nat) (a : List Nat) (t : Nat) :
    ∀ c ∈ ((List.range t).map (workerCalls g e a t)).flatten, c.entrypoint = e := by
  intro c hc
  obtain ⟨l, hl, hcl⟩ := List.mem_flatten.mp hc
  obtain ⟨o, _, rfl⟩ := List.mem_map.mp hl
  obtain ⟨k, _, rfl⟩ := List.mem_map.mp hcl
  rfl

/-- The loop never stops on a zero divisor, whatever the grid. -/
theorem runLoopFrom_ne_divByZero (g : GridSize) (e : Nat) (a : List Nat) (t : Nat) :
    ∀ fuel i, runLoopFrom g e a t fuel i ≠ .error .divByZero := by
  intro fuel
  induction fuel with
  | zero => intro i h; simp [runLoopFrom] at h
  | succ fuel ih =>
    intro i h
    unfold runLoopFrom at h
    by_cases hi : i < iterations g
    · rw [if_pos hi, decodeIndex_of_lt g i hi] at h
      have := ih (addSize i t)
      cases hr : runLoopFrom g e a t fuel (addSize i t) with
      | error s =>
        rw [hr] at h
        simp only [Except.error.injEq] at h
        exact this (by rw [hr, h])
      | ok rest =>
        rw [hr] at h
        simp at h
    · rw [if_neg hi] at h
      simp at h

/-! ## The naming contract -/

/-- C8: `InvokerName K` is exactly `"__invoke_"` followed by `K`: its length is
9 plus the length of `K`, it ends with `K`, distinct kernel names give distinct
entry-point names, and `InvokerName "matmul" = "__invoke_matmul"`. -/
theorem InvokerName_contract (K : String) :
    InvokerName K = "__invoke_" ++ K
    ∧ (InvokerName K).length = 9 + K.length
    ∧ (InvokerName K).data = "__invoke_".data ++ K.data
    ∧ K.data <:+ (InvokerName K).data
    ∧ Function.Injective InvokerName
    ∧ InvokerName "matmul" = "__invoke_matmul" := by
  refine ⟨rfl, ?_, ?_, ?_, ?_, by decide⟩
  · unfold InvokerName invoker_prefix_
    rw [String.length_append]
    rfl
  · unfold InvokerName invoker_prefix_
    rw [String.data_append]
  · unfold InvokerName invoker_prefix_
    rw [String.data_append]
    exact List.suffix_append _ _
  · intro K1 K2 h
    unfold InvokerName invoker_prefix_ at h
    have h2 := congrArg String.data h
    rw [String.data_append, String.data_append] at h2
    exact String.ext (List.append_cancel_left h2)

/-! ## Failed dependencies -/

/-- C6: when the joined dependencies resolve to a failure, the continuation
fails at `future.get()`: whatever the kernel, host, buffers and fuel, no base
address is resolved, no symbol is looked up, no worker issues a call, and the
completion signal is that failure, not a `Result`. -/
theorem dependency_failure_propagates (k : Kernel) (host : Host) (ctx : Nat)
    (params : List Buffer) (fuel : Nat) (e : String) :
    ∃ tr : Trace, k.Run host ctx params fuel (.error e) = .ok (tr, .failed e)
      ∧ tr.allCalls = [] ∧ tr.calls = [] ∧ tr.bases = [] ∧ tr.lookups = []
      ∧ ∀ r : Result, k.Run host ctx params fuel (.error e) ≠ .ok (tr, .result r) := by
  refine ⟨⟨[], [], []⟩, rfl, rfl, rfl, rfl, rfl, ?_⟩
  intro r h
  simp [Kernel.Run, continuation] at h

/-! ## Division and modulo -/

/-- C9: with `iterations = gx*gy*gz mod 2^64` and `denom[0] = gz*gy mod 2^64`,
whenever some `i < iterations` exists (the loop body runs), no divisor
`denom[0], denom[1], denom[2]` and no modulus `gx, gy, gz` is zero, for every
grid shape; the guarded divisions and modulos all return a value, the decode
returns a coordinate, and the loop never stops on a zero divisor. -/
theorem no_division_by_zero (g : GridSize) (i : Nat) (h : i < iterations g) :
    iterations g = (g.x * g.y * g.z) % 2 ^ 64
    ∧ denom g = ⟨(g.z * g.y) % 2 ^ 64, g.z, 1⟩
    ∧ (denom g).x ≠ 0 ∧ (denom g).y ≠ 0 ∧ (denom g).z ≠ 0
    ∧ g.x ≠ 0 ∧ g.y ≠ 0 ∧ g.z ≠ 0
    ∧ divSize i (denom g).x = some (i / (denom g).x)
    ∧ divSize i (denom g).y = some (i / (denom g).y)
    ∧ divSize i (denom g).z = some (i / (denom g).z)
    ∧ modSize (i / (denom g).x) g.x = some (i / (denom g).x % g.x)
    ∧ modSize (i / (denom g).y) g.y = some (i / (denom g).y % g.y)
    ∧ modSize (i / (denom g).z) g.z = some (i / (denom g).z % g.z)
    ∧ decodeIndex g i
        = some ⟨i / (denom g).x % g.x, i / (denom g).y % g.y, i / (denom g).z % g.z⟩
    ∧ ∀ (e : Nat) (a : List Nat) (t fuel o : Nat),
        runLoop g e a t fuel o ≠ .error .divByZero := by
  obtain ⟨h0, h1, h2, hx, hy, hz⟩ :=
    nonzero_of_iterations_pos g (lt_of_le_of_lt (Nat.zero_le _) h)
  refine ⟨iterations_eq g, rfl, h0, h1, h2, hx, hy, hz, ?_, ?_, ?_, ?_, ?_, ?_, ?_, ?_⟩
  · simp [divSize, h0]
  · simp [divSize, h1]
  · simp [divSize, h2]
  · simp [modSize, hx]
  · simp [modSize, hy]
  · simp [modSize, hz]
  · rw [decodeIndex_of_lt g i h]
    simp [denom]
  · intro e a t fuel o
    exact runLoopFrom_ne_divByZero g e a t fuel o

/-- C9 at the grid `(2, 3, 4)` and the index 5. -/
theorem no_division_by_zero_witness :
    (5 < iterations ⟨2, 3, 4⟩)
    ∧ decodeIndex ⟨2, 3, 4⟩ 5 = some ⟨0, 1, 1⟩ := by
  refine ⟨by decide, ?_⟩
  have h := (no_division_by_zero ⟨2, 3, 4⟩ 5 (by decide)).2.2.2.2.2.2.2.2.2.2.2.2.2.2.1
  rw [h]
  decide

/-! ## Termination of the worker loop -/

/-- Every `size_t` value is the iteration count of some grid. -/
theorem iterations_line (n : Nat) (h : n < SIZE_RANGE) : iterations ⟨n, 1, 1⟩ = n := by
  simp [iterations, mulSize, Nat.mod_eq_of_lt h]

/-- C10: a worker is started only with an offset below `threads`, hence only
when `threads >= 1`. For every iteration count `N` (the count of a grid `g`),
every `threads >= 1` with `N + threads <= 2^64` and every offset below
`threads`, the loop terminates: every fuel above `N` gives the same calls, and
their number is `ceil((N - offset) / threads)` when `offset < N`, zero otherwise. -/
theorem worker_loop_terminates (g : GridSize) (e : Nat) (a : List Nat) (t o : Nat)
    (ht : 1 ≤ t) (hw : iterations g + t ≤ 2 ^ 64) (_ho : o < t) :
    (∀ t2 o2 : Nat, o2 ∈ workerOffsets t2 → o2 < t2 ∧ 1 ≤ t2)
    ∧ ∃ calls : List Invocation,
        (∀ fuel, iterations g < fuel → runLoop g e a t fuel o = .ok calls)
        ∧ calls.length
            = (if o < iterations g then (iterations g - o + t - 1) / t else 0)
        ∧ (o < iterations g →
            (iterations g - o ≤ calls.length * t
              ∧ (calls.length - 1) * t < iterations g - o)) := by
  refine ⟨?_, workerCalls g e a t o, ?_, ?_, ?_⟩
  · intro t2 o2 h2
    have := List.mem_range.mp h2
    omega
  · intro fuel hf
    exact runLoopFrom_ok g e a t ht hw fuel o (by omega)
  · unfold workerCalls
    rw [List.length_map, List.length_range]
    by_cases h : o < iterations g
    · rw [if_pos h]; rfl
    · rw [if_neg h]
      exact tripCount_of_ge _ _ _ ht (by omega)
  · intro h
    unfold workerCalls
    rw [List.length_map, List.length_range]
    have h1 : ¬ (tripCount (iterations g) t o < tripCount (iterations g) t o) := lt_irrefl _
    rw [lt_tripCount_iff _ _ _ _ ht] at h1
    have hpos : 0 < tripCount (iterations g) t o :=
      (lt_tripCount_iff _ _ _ 0 ht).mpr (by omega)
    have h2 : tripCount (iterations g) t o - 1 < tripCount (iterations g) t o := by omega
    rw [lt_tripCount_iff _ _ _ _ ht] at h2
    omega

/-- C10 at `N = 10`, `threads = 4`, offset 1: three calls, `ceil(9 / 4)`. -/
theorem worker_loop_terminates_witness :
    ∃ calls : List Invocation,
      (∀ fuel, iterations ⟨10, 1, 1⟩ < fuel → runLoop ⟨10, 1, 1⟩ 7 [] 4 fuel 1 = .ok calls)
      ∧ calls.length = 3 := by
  obtain ⟨calls, h1, h2, _⟩ :=
    (worker_loop_terminates ⟨10, 1, 1⟩ 7 [] 4 1 (by decide) (by decide) (by decide)).2
  refine ⟨calls, h1, ?_⟩
  rw [h2]
  decide

/-! ## The decode as a bijection and as the row-major unravel -/

/-- C1, amended: for every grid shape with `gx, gy, gz >= 1` whose product
`gx*gy*gz` is below `2^64` (no `size_t` product wraps), the decode of `Run` maps
the linear indices `0 .. gx*gy*gz - 1` bijectively onto the grid: every index
decodes to a coordinate of the grid, and every coordinate of the grid is the
decode of exactly one index. -/
theorem decode_bijective (g : GridSize) (hx : 1 ≤ g.x) (hy : 1 ≤ g.y) (hz : 1 ≤ g.z)
    (hfit : g.x * g.y * g.z < 2 ^ 64) :
    (∀ i, i < g.x * g.y * g.z → ∃ c, decodeIndex g i = some c ∧ inGrid g c)
    ∧ (∀ c, inGrid g c → ∃! i, i < g.x * g.y * g.z ∧ decodeIndex g i = some c) := by
  constructor
  · intro i _
    exact ⟨unravel g i, decodeIndex_of_fit g i hx hy hz hfit, unravel_inGrid g i hx hy hz⟩
  · intro c hc
    refine ⟨ravel g c, ⟨ravel_lt g c hc, ?_⟩, ?_⟩
    · rw [decodeIndex_of_fit g _ hx hy hz hfit, unravel_ravel g c hc]
    · rintro j ⟨hj, hdec⟩
      rw [decodeIndex_of_fit g j hx hy hz hfit] at hdec
      have hc2 : unravel g j = c := Option.some.inj hdec
      rw [← hc2, ravel_unravel g j hj]

/-- C1 at the grid `(2, 3, 4)`: the coordinate `(1, 2, 3)` comes from index 23. -/
theorem decode_bijective_witness :
    ∃! i, i < 2 * 3 * 4 ∧ decodeIndex ⟨2, 3, 4⟩ i = some ⟨1, 2, 3⟩ :=
  (decode_bijective ⟨2, 3, 4⟩ (by decide) (by decide) (by decide) (by decide)).2
    ⟨1, 2, 3⟩ (by decide)

/-- C1 as stated fails at the grid `(2, 2^32, 2^32 + 3)`: `gz*gy` wraps to
`3 * 2^32` and `Run` iterates over `6 * 2^32` indices only. The grid coordinate
`(1, 0, 0)` is the decode of no `size_t` index, and the two indices `0` and
`2^64 + 3 * 2^32`, both below `gx*gy*gz`, decode to the same coordinate. -/
theorem decode_not_bijective_when_wrapping :
    (1 ≤ 2 ∧ 1 ≤ 2 ^ 32 ∧ 1 ≤ 2 ^ 32 + 3)
    ∧ inGrid ⟨2, 2 ^ 32, 2 ^ 32 + 3⟩ ⟨1, 0, 0⟩
    ∧ denom ⟨2, 2 ^ 32, 2 ^ 32 + 3⟩ = ⟨3 * 2 ^ 32, 2 ^ 32 + 3, 1⟩
    ∧ iterations ⟨2, 2 ^ 32, 2 ^ 32 + 3⟩ = 6 * 2 ^ 32
    ∧ (∀ i, i < 2 ^ 64 → decodeIndex ⟨2, 2 ^ 32, 2 ^ 32 + 3⟩ i ≠ some ⟨1, 0, 0⟩)
    ∧ 2 ^ 64 + 3 * 2 ^ 32 < 2 * 2 ^ 32 * (2 ^ 32 + 3)
    ∧ decodeIndex ⟨2, 2 ^ 32, 2 ^ 32 + 3⟩ 0 = some ⟨0, 0, 0⟩
    ∧ decodeIndex ⟨2, 2 ^ 32, 2 ^ 32 + 3⟩ (2 ^ 64 + 3 * 2 ^ 32) = some ⟨0, 0, 0⟩ := by
  refine ⟨by decide, by decide, by decide, by decide, ?_, by decide, by decide, by decide⟩
  intro i hi h
  rw [decodeIndex_of_nonzero ⟨2, 2 ^ 32, 2 ^ 32 + 3⟩ i
    (by decide) (by decide) (by decide) (by decide)] at h
  have hd : (denom ⟨2, 2 ^ 32, 2 ^ 32 + 3⟩).x = 12884901888 := by decide
  rw [hd] at h
  simp only [Option.some.injEq, GridSize.mk.injEq] at h
  have h3 : i / 12884901888 % 2 = 1 ∧ i / 4294967299 % 4294967296 = 0
      ∧ i % 4294967299 = 0 := h
  have hi3 : i < 18446744073709551616 := hi
  omega

/-- C2, amended: for every grid shape with `gx, gy, gz >= 1` whose product is
below `2^64`, the decode is the row-major unravel with axis 0 slowest: the
coordinate of `i < gx*gy*gz` satisfies `c0*(gy*gz) + c1*gz + c2 = i`, and the
offset `c0*(gy*gz) + c1*gz + c2` of a grid coordinate decodes to it. For the
grid `(2, 3, 4)`: 0 gives `(0,0,0)`, 5 gives `(0,1,1)`, 23 gives `(1,2,3)`. -/
theorem decode_row_major (g : GridSize) (hx : 1 ≤ g.x) (hy : 1 ≤ g.y) (hz : 1 ≤ g.z)
    (hfit : g.x * g.y * g.z < 2 ^ 64) :
    (∀ i, i < g.x * g.y * g.z →
      ∃ c, decodeIndex g i = some c ∧ c.x * (g.y * g.z) + c.y * g.z + c.z = i)
    ∧ (∀ c0 c1 c2, c0 < g.x → c1 < g.y → c2 < g.z →
      decodeIndex g (c0 * (g.y * g.z) + c1 * g.z + c2) = some ⟨c0, c1, c2⟩)
    ∧ decodeIndex ⟨2, 3, 4⟩ 0 = some ⟨0, 0, 0⟩
    ∧ decodeIndex ⟨2, 3, 4⟩ 5 = some ⟨0, 1, 1⟩
    ∧ decodeIndex ⟨2, 3, 4⟩ 23 = some ⟨1, 2, 3⟩ := by
  refine ⟨?_, ?_, by decide, by decide, by decide⟩
  · intro i hi
    exact ⟨unravel g i, decodeIndex_of_fit g i hx hy hz hfit, ravel_unravel g i hi⟩
  · intro c0 c1 c2 h0 h1 h2
    rw [decodeIndex_of_fit g _ hx hy hz hfit]
    exact congrArg some (unravel_ravel g ⟨c0, c1, c2⟩ ⟨h0, h1, h2⟩)

/-- C2 at the grid `(2, 3, 4)`: index 17 decodes to `(1, 1, 1)` and back. -/
theorem decode_row_major_witness :
    (∃ c, decodeIndex ⟨2, 3, 4⟩ 17 = some c ∧ c.x * (3 * 4) + c.y * 4 + c.z = 17)
    ∧ decodeIndex ⟨2, 3, 4⟩ (1 * (3 * 4) + 1 * 4 + 1) = some ⟨1, 1, 1⟩ :=
  have h := decode_row_major ⟨2, 3, 4⟩ (by decide) (by decide) (by decide) (by decide)
  ⟨h.1 17 (by decide), h.2.1 1 1 1 (by decide) (by decide) (by decide)⟩

/-- C2 as stated fails at the grid `(2, 2^32, 2^32 + 1)` and the index `2^32`,
one of the `2^33` indices `Run` iterates over: it decodes to `(1, 0, 2^32)`,
whose row-major offset is `2^64 + 2^33`. -/
theorem decode_not_row_major_when_wrapping :
    (1 ≤ 2 ∧ 1 ≤ 2 ^ 32 ∧ 1 ≤ 2 ^ 32 + 1)
    ∧ 2 ^ 32 < 2 * 2 ^ 32 * (2 ^ 32 + 1)
    ∧ 2 ^ 32 < iterations ⟨2, 2 ^ 32, 2 ^ 32 + 1⟩
    ∧ decodeIndex ⟨2, 2 ^ 32, 2 ^ 32 + 1⟩ (2 ^ 32) = some ⟨1, 0, 2 ^ 32⟩
    ∧ 1 * (2 ^ 32 * (2 ^ 32 + 1)) + 0 * (2 ^ 32 + 1) + 2 ^ 32 ≠ 2 ^ 32 := by
  refine ⟨by decide, by decide, by decide, by decide, by decide⟩

/-! ## Round-robin striping -/

theorem workerIndices_increasing (n t o : Nat) (ht : 1 ≤ t) :
    (workerIndices n t o).Pairwise (fun i j => i < j) := by
  unfold workerIndices
  rw [List.pairwise_map]
  apply List.Pairwise.imp _ (List.pairwise_lt_range _)
  intro k1 k2 h
  have : k1 * t < k2 * t := Nat.mul_lt_mul_of_pos_right h (by omega)
  omega

/-- C3, amended: for every iteration count `N` (the count of a grid `g`) and
every `threads >= 1` with `N + threads <= 2^64` (so `i += threads` never
wraps), the loop started with offset `o < threads` processes exactly the indices
`i < N` with `i mod threads = o`, in the increasing order `o, o + threads, ...`;
the index sets of the workers `0 .. threads - 1` are pairwise disjoint and their
union is `0 .. N - 1`. With `threads = 4` and `N = 10`: worker 0 has `0, 4, 8`,
worker 1 has `1, 5, 9`, worker 2 has `2, 6`, worker 3 has `3, 7`. -/
theorem round_robin_striping (g : GridSize) (e : Nat) (a : List Nat) (t : Nat)
    (ht : 1 ≤ t) (hw : iterations g + t ≤ 2 ^ 64) :
    ∃ W : Nat → List Invocation,
      (∀ o, o < t → ∀ fuel, iterations g < fuel → runLoop g e a t fuel o = .ok (W o))
      ∧ (∀ o, o < t → (W o).map Invocation.linear
          = (List.range ((iterations g - o + t - 1) / t)).map (fun k => o + k * t))
      ∧ (∀ o, o < t → ((W o).map Invocation.linear).Pairwise (fun i j => i < j))
      ∧ (∀ o, o < t → ∀ i, i ∈ (W o).map Invocation.linear ↔ i < iterations g ∧ i % t = o)
      ∧ (∀ o1 o2, o1 < t → o2 < t → o1 ≠ o2 →
          List.Disjoint ((W o1).map Invocation.linear) ((W o2).map Invocation.linear))
      ∧ (∀ i, i < iterations g → ∃ o, o < t ∧ i ∈ (W o).map Invocation.linear)
      ∧ (((List.range t).map (fun o => (W o).map Invocation.linear)).flatten).Perm
          (List.range (iterations g))
      ∧ (runLoop ⟨10, 1, 1⟩ 0 [] 4 11 0).toOption.map (List.map Invocation.linear)
          = some [0, 4, 8]
      ∧ (runLoop ⟨10, 1, 1⟩ 0 [] 4 11 1).toOption.map (List.map Invocation.linear)
          = some [1, 5, 9]
      ∧ (runLoop ⟨10, 1, 1⟩ 0 [] 4 11 2).toOption.map (List.map Invocation.linear)
          = some [2, 6]
      ∧ (runLoop ⟨10, 1, 1⟩ 0 [] 4 11 3).toOption.map (List.map Invocation.linear)
          = some [3, 7] := by
  refine ⟨workerCalls g e a t, ?_, ?_, ?_, ?_, ?_, ?_, ?_,
    by decide, by decide, by decide, by decide⟩
  · intro o _ fuel hf
    exact runLoopFrom_ok g e a t ht hw fuel o (by omega)
  · intro o _
    rw [workerCalls_linear]
    rfl
  · intro o _
    rw [workerCalls_linear]
    exact workerIndices_increasing _ t o ht
  · intro o ho i
    rw [workerCalls_linear]
    exact mem_workerIndices _ t o i ht ho
  · intro o1 o2 h1 h2 hne i hi1 hi2
    rw [workerCalls_linear] at hi1 hi2
    have e1 := ((mem_workerIndices _ t o1 i ht h1).mp hi1).2
    have e2 := ((mem_workerIndices _ t o2 i ht h2).mp hi2).2
    exact hne (e1.symm.trans e2)
  · intro i hi
    refine ⟨i % t, Nat.mod_lt _ (by omega), ?_⟩
    rw [workerCalls_linear]
    exact (mem_workerIndices _ t (i % t) i ht (Nat.mod_lt _ (by omega))).mpr ⟨hi, rfl⟩
  · have e1 : (List.range t).map (fun o => (workerCalls g e a t o).map Invocation.linear)
        = (List.range t).map (workerIndices (iterations g) t) := by
      apply List.map_congr_left
      intro o _
      exact workerCalls_linear g e a t o
    rw [e1]
    exact allIndices_perm (iterations g) t ht

/-- C3 at `N = 7`, `threads = 3`: worker 1 processes `1, 4`. -/
theorem round_robin_striping_witness :
    ∃ W : Nat → List Invocation,
      (∀ fuel, iterations ⟨7, 1, 1⟩ < fuel → runLoop ⟨7, 1, 1⟩ 0 [] 3 fuel 1 = .ok (W 1))
      ∧ (W 1).map Invocation.linear = [1, 4] := by
  obtain ⟨W, h1, h2, _⟩ := round_robin_striping ⟨7, 1, 1⟩ 0 [] 3 (by decide) (by decide)
  refine ⟨W, h1 1 (by decide), ?_⟩
  rw [h2 1 (by decide)]
  decide

theorem runLoopFrom_even_forever (e : Nat) (a : List Nat) :
    ∀ fuel i, i % 2 = 0 → i < 2 ^ 64 →
      runLoopFrom ⟨2 ^ 64 - 1, 1, 1⟩ e a 2 fuel i = .error .outOfFuel := by
  have hN : iterations ⟨2 ^ 64 - 1, 1, 1⟩ = 18446744073709551615 := by decide
  intro fuel
  induction fuel with
  | zero => intro i _ _; rfl
  | succ fuel ih =>
    intro i hev hlt
    have hlt2 : i < 18446744073709551616 := hlt
    have hi : i < iterations ⟨2 ^ 64 - 1, 1, 1⟩ := by rw [hN]; omega
    have hnext : addSize i 2 % 2 = 0 ∧ addSize i 2 < 2 ^ 64 := by
      have e1 : addSize i 2 = (i + 2) % 18446744073709551616 := rfl
      have e2 : (2 : Nat) ^ 64 = 18446744073709551616 := by decide
      rw [e1, e2]
      omega
    unfold runLoopFrom
    rw [if_pos hi, decodeIndex_of_lt _ i hi, ih _ hnext.1 hnext.2]

/-- C3 as stated fails at `N = 2^64 - 1` (the grid `(2^64 - 1, 1, 1)`),
`threads = 2`, offset 0: after `i = 2^64 - 2` the step `i += 2` wraps to 0, so
the loop never ends, whatever the fuel. -/
theorem round_robin_wraps_forever :
    iterations ⟨2 ^ 64 - 1, 1, 1⟩ = 2 ^ 64 - 1
    ∧ addSize (2 ^ 64 - 2) 2 = 0
    ∧ ∀ fuel, runLoop ⟨2 ^ 64 - 1, 1, 1⟩ 0 [] 2 fuel 0 = .error .outOfFuel := by
  refine ⟨by decide, by decide, ?_⟩
  intro fuel
  exact runLoopFrom_even_forever 0 [] fuel 0 (by decide) (by decide)

/-! ## One `Run`: all workers together -/

/-- C5 at the failing input: on a host whose hardware concurrency is reported as
0, the grid `(2, 3, 4)` has 24 iterations but `threads = min(24, 0) = 0`: no
worker is started, the entry point is never called, and the continuation still
returns a `Result`. The rest of the claim holds: `threads` is `min(N, cores)`,
never above `N`, and nonzero for nonzero `N` as soon as `cores >= 1`. -/
theorem zero_cores_zero_threads :
    iterations ⟨2, 3, 4⟩ = 24
    ∧ threads (iterations ⟨2, 3, 4⟩) 0 = 0
    ∧ workerOffsets (threads (iterations ⟨2, 3, 4⟩) 0) = []
    ∧ (∀ fuel, Kernel.Run ⟨fun _ => 4096, ⟨"k", ⟨2, 3, 4⟩⟩⟩ ⟨0, 0, 1⟩ 0 [] fuel (.ok ())
        = .ok (⟨[], ["__invoke_k"], []⟩, .result ⟨0, "tile::hal::cpu::Executing", 0, 1⟩))
    ∧ ∀ n cores : Nat, threads n cores = min n cores ∧ threads n cores ≤ n
        ∧ (1 ≤ cores → n ≠ 0 → threads n cores ≠ 0) := by
  refine ⟨by decide, by decide, by decide, ?_, ?_⟩
  swap
  · intro n cores
    refine ⟨rfl, Nat.min_le_left n cores, ?_⟩
    intro hc hn
    unfold threads
    omega
  intro fuel
  have hit : threads (iterations ⟨2, 3, 4⟩) 0 = 0 := by decide
  simp only [Kernel.Run, continuation, hit, Host.cores, workerOffsets]
  rfl

/-! ## An unresolved entry point -/

theorem continuation_never_fails (engine : String → Nat) (name : String) (g : GridSize)
    (host : Host) (ctx : Nat) (params : List Buffer) (fuel : Nat) (tr : Trace) (e : String) :
    continuation engine name g host ctx params fuel (.ok ()) ≠ .ok (tr, .failed e) := by
  intro h
  unfold continuation at h
  simp only at h
  split at h
  · exact Except.noConfusion h
  · simp at h

/-- C7 at the failing input: the kernel `k` on the grid `(1, 1, 1)` with a module
that resolves no symbol (the lookup of `"__invoke_k"` returns 0), one buffer,
one core and resolved dependencies. `Run` makes no check of the address: the
single worker issues the call of line 58 at `(0, 0, 0)` with callee address 0,
a call through a null function pointer. The execution is undefined there; it
resolves the completion signal neither to a failure nor to a `Result`, and no
fuel makes it a failure. -/
theorem unresolved_symbol_null_call :
    InvokerName "k" = "__invoke_k"
    ∧ (∀ fuel, 1 < fuel →
        runLoop ⟨1, 1, 1⟩ 0 [64] 1 fuel 0 = .ok [⟨0, 0, [64], ⟨0, 0, 0⟩⟩])
    ∧ callEntry ⟨0, 0, [64], ⟨0, 0, 0⟩⟩ = .error .nullCall
    ∧ (∀ fuel, 1 < fuel →
        Kernel.RunCalling ⟨fun _ => 0, ⟨"k", ⟨1, 1, 1⟩⟩⟩ ⟨1, 0, 1⟩ 0 [⟨64⟩] fuel (.ok ())
          = .error .nullCall)
    ∧ ∀ (fuel : Nat) (tr : Trace) (e : String),
        Kernel.RunCalling ⟨fun _ => 0, ⟨"k", ⟨1, 1, 1⟩⟩⟩ ⟨1, 0, 1⟩ 0 [⟨64⟩] fuel (.ok ())
          ≠ .ok (tr, .failed e) := by
  have hit : iterations ⟨1, 1, 1⟩ = 1 := by decide
  refine ⟨by decide, ?_, rfl, ?_, ?_⟩
  · intro fuel hf
    have h := runLoopFrom_ok ⟨1, 1, 1⟩ 0 [64] 1 (by decide) (by decide) fuel 0
      (by rw [hit]; omega)
    unfold runLoop
    rw [h]
    rfl
  · intro fuel hf
    have h := continuation_ok (fun _ => 0) (InvokerName "k") ⟨1, 1, 1⟩ ⟨1, 0, 1⟩ 0 [⟨64⟩] fuel
      (by decide) (by rw [hit]; omega)
    unfold Kernel.RunCalling Kernel.Run
    simp only
    rw [h]
    rfl
  · intro fuel tr e h
    unfold Kernel.RunCalling Kernel.Run at h
    simp only at h
    cases hr : continuation (fun _ => 0) (InvokerName "k") ⟨1, 1, 1⟩ ⟨1, 0, 1⟩ 0 [⟨64⟩]
        fuel (.ok ()) with
    | error s =>
      rw [hr] at h
      exact Except.noConfusion h
    | ok v =>
      obtain ⟨tr2, sig⟩ := v
      rw [hr] at h
      simp only at h
      cases hc : callAll tr2.allCalls with
      | error s =>
        rw [hc] at h
        exact Except.noConfusion h
      | ok u =>
        rw [hc] at h
        simp only [Except.ok.injEq, Prod.mk.injEq] at h
        rw [h.1, h.2] at hr
        exact continuation_never_fails _ _ _ _ _ _ _ _ _ hr

end vertexai.tile.hal.cpu
